import Mathlib

/-!
# Verification of the `Token` class (`src/core/lib/token.mjs`)

A shallow embedding of the token-authentication subsystem: JWT-style
encode / decode / validate / verify / generate, plus the CSRF pair.

Modelling decisions (all stdlib primitives of Node, not repository code):

* JavaScript strings are Lean `String`s (lists of characters).
* `JSON` values are modelled by the inductive `JVal` (`null`, integers,
  strings and objects — the shapes this subsystem produces and consumes; JS
  numbers are modelled as integers, which is exact for the epoch-millisecond
  timestamps the code manipulates).
* Property access on JSON `null` (`data.body.exp` in `validate`, the
  `infoAccess.body.data` loop head and the `infoRefresh.body.data[key]`
  read in `verify`) throws `TypeError` in JS; each operation's try-block is
  additionally rendered as an `Except`-valued `E`-version in which those
  throws — and `generate`'s explicit `throw new Error` — appear as
  `Except.error`, and the public operations realize the catch clauses.
* The composite `btoa(JSON.stringify v)` used for the first two token
  segments is modelled by `encV : JVal → List Char`, an executable injective
  coding whose alphabet avoids `'.'` (as base64 does), together with its
  verified executable partial inverse `deserialize`, modelling
  `JSON.parse(atob s)` (which fails on strings that are not valid encodings,
  as `atob` / `JSON.parse` throw on invalid input).
* `crypto.createHmac('sha512', key).update(msg).digest(enc)` is modelled as
  an ideal MAC: a deterministic function of `(key, msg)`, injective, with a
  dot-free output alphabet (as base64/hex are); the base64 and hex digest
  variants are distinct functions.
* `encodeURIComponent` / `decodeURIComponent` are mutually inverse transport
  escapings; every code path applies them as the composite
  `decodeURIComponent (encodeURIComponent x) = x`, so they are modelled as
  the identity.
-/

namespace FastFlash

abbrev Chars := List Char

/-! ## Character/digit primitives for the serialization model -/

/-- The decimal digit character for `d < 10`. -/
def digitChar (d : Nat) : Char := Char.ofNat (48 + d)

/-- Partial inverse of `digitChar`: the value of a decimal digit character. -/
def charDigit? (c : Char) : Option Nat :=
  if 48 ≤ c.toNat ∧ c.toNat ≤ 57 then some (c.toNat - 48) else none

/-- Little-endian decimal digits of `n` (fuelled so that the recursion is
structural and kernel-reducible); `fuel ≥ n` suffices. -/
def leDigitsAux : Nat → Nat → Chars
  | 0, _ => []
  | fuel + 1, n => if n = 0 then [] else digitChar (n % 10) :: leDigitsAux fuel (n / 10)

/-- Little-endian decimal digit characters of `n`. -/
def natLE (n : Nat) : Chars := leDigitsAux n n

/-- Read a little-endian decimal digit run terminated by `'e'`, with
accumulator `acc` and positional multiplier `mult`. -/
def natParseAux : Chars → Nat → Nat → Option (Nat × Chars)
  | [], _, _ => none
  | c :: cs, acc, mult =>
    if c = 'e' then some (acc, cs)
    else
      match charDigit? c with
      | some d => natParseAux cs (acc + d * mult) (mult * 10)
      | none => none

/-- Coding of a character list: each character as the little-endian decimal
digits of its code point followed by `'c'`, the whole terminated by `'e'`. -/
def encStr : Chars → Chars
  | [] => ['e']
  | c :: cs => natLE c.toNat ++ 'c' :: encStr cs

/-- Parser for `encStr`: digit runs build the current code point, `'c'` emits
the character, `'e'` terminates. -/
def parseStrAux : Chars → Nat → Nat → Option (Chars × Chars)
  | [], _, _ => none
  | c :: cs, acc, mult =>
    if c = 'e' then some ([], cs)
    else if c = 'c' then
      match parseStrAux cs 0 1 with
      | some (s, rest) => some (Char.ofNat acc :: s, rest)
      | none => none
    else
      match charDigit? c with
      | some d => parseStrAux cs (acc + d * mult) (mult * 10)
      | none => none

/-- Coding of an integer: optional minus marker `'m'`, then the digit run
of the absolute value terminated by `'e'`. -/
def encInt (n : Int) : Chars :=
  if n < 0 then 'm' :: natLE n.natAbs ++ ['e'] else natLE n.toNat ++ ['e']

/-- Parser for `encInt`. -/
def parseInt (cs : Chars) : Option (Int × Chars) :=
  match cs with
  | [] => none
  | c :: rest =>
    if c = 'm' then
      match natParseAux rest 0 1 with
      | some (n, r) => some (-(n : Int), r)
      | none => none
    else
      match natParseAux (c :: rest) 0 1 with
      | some (n, r) => some ((n : Int), r)
      | none => none

/-! ## JSON values -/

/-- The JSON values this subsystem manipulates: JSON `null`, integers,
strings, and objects given as a field chain (`onil` is `{}`,
`ocons k v rest` is the object whose first field is `k: v` and whose
remaining fields are `rest`).  `null` is a first-class JSON document
(`JSON.parse('null')` succeeds), and a token whose body segment decodes to
`null` drives the catch arms of `validate` and `verify`. -/
inductive JVal where
  | jnull
  | num (n : Int)
  | str (s : String)
  | onil
  | ocons (k : String) (v : JVal) (rest : JVal)
deriving DecidableEq, Repr

/-- Model of `btoa(JSON.stringify v)`: an injective coding of JSON values
over an alphabet without `'.'` (base64 produces no dot either). -/
def encV : JVal → Chars
  | .jnull => ['n']
  | .num n => 'i' :: encInt n
  | .str s => 's' :: encStr s.data
  | .onil => ['z']
  | .ocons k v rest => 'o' :: (encStr k.data ++ (encV v ++ encV rest))

/-- Recursion depth bound used as parser fuel. -/
def jsize : JVal → Nat
  | .ocons _ v rest => 1 + max (jsize v) (jsize rest)
  | _ => 1

/-- Fuelled parser for `encV`. -/
def parseV : Nat → Chars → Option (JVal × Chars)
  | 0, _ => none
  | fuel + 1, cs =>
    match cs with
    | 'i' :: rest =>
      match parseInt rest with
      | some (n, r) => some (JVal.num n, r)
      | none => none
    | 's' :: rest =>
      match parseStrAux rest 0 1 with
      | some (s, r) => some (JVal.str ⟨s⟩, r)
      | none => none
    | 'n' :: rest => some (JVal.jnull, rest)
    | 'z' :: rest => some (JVal.onil, rest)
    | 'o' :: rest =>
      match parseStrAux rest 0 1 with
      | none => none
      | some (k, r1) =>
        match parseV fuel r1 with
        | none => none
        | some (v, r2) =>
          match parseV fuel r2 with
          | none => none
          | some (restObj, r3) => some (JVal.ocons ⟨k⟩ v restObj, r3)
    | _ => none

/-- Model of `JSON.parse(atob s)`: succeeds exactly on full canonical
encodings, as the stdlib pair throws on anything else. -/
def deserialize (cs : Chars) : Option JVal :=
  match parseV (cs.length + 1) cs with
  | some (v, []) => some v
  | _ => none

/-! ## Codec correctness -/

theorem charDigit_digitChar : ∀ d, d < 10 → charDigit? (digitChar d) = some d := by decide

theorem digitChar_ne : ∀ d, d < 10 →
    digitChar d ≠ 'e' ∧ digitChar d ≠ 'c' ∧ digitChar d ≠ '.' ∧ digitChar d ≠ 'm' := by decide

theorem natParseAux_e (cs : Chars) (acc mult : Nat) :
    natParseAux ('e' :: cs) acc mult = some (acc, cs) := rfl

theorem natParseAux_digit (c : Char) (cs : Chars) (acc mult d : Nat)
    (he : c ≠ 'e') (hc : charDigit? c = some d) :
    natParseAux (c :: cs) acc mult = natParseAux cs (acc + d * mult) (mult * 10) := by
  rw [natParseAux, if_neg he, hc]

theorem parseStrAux_e (cs : Chars) (acc mult : Nat) :
    parseStrAux ('e' :: cs) acc mult = some ([], cs) := rfl

theorem parseStrAux_c (cs : Chars) (acc mult : Nat) :
    parseStrAux ('c' :: cs) acc mult
      = match parseStrAux cs 0 1 with
        | some (s, rest) => some (Char.ofNat acc :: s, rest)
        | none => none := by
  rw [parseStrAux, if_neg (by decide), if_pos rfl]

theorem parseStrAux_digit (c : Char) (cs : Chars) (acc mult d : Nat)
    (he : c ≠ 'e') (hcc : c ≠ 'c') (hc : charDigit? c = some d) :
    parseStrAux (c :: cs) acc mult = parseStrAux cs (acc + d * mult) (mult * 10) := by
  rw [parseStrAux, if_neg he, if_neg hcc, hc]

theorem parseInt_m (rest : Chars) :
    parseInt ('m' :: rest)
      = match natParseAux rest 0 1 with
        | some (n, r) => some (-(n : Int), r)
        | none => none := rfl

theorem parseInt_not_m (c : Char) (rest : Chars) (h : c ≠ 'm') :
    parseInt (c :: rest)
      = match natParseAux (c :: rest) 0 1 with
        | some (n, r) => some ((n : Int), r)
        | none => none := by
  rw [parseInt.eq_def]
  exact if_neg h

/-- Feeding a little-endian digit run into `natParseAux` adds `n * mult`
to the accumulator and continues on the tail. -/
theorem natParseAux_leDigits (fuel : Nat) :
    ∀ (n : Nat) (t : Chars) (acc mult : Nat), n ≤ fuel →
      ∃ m', natParseAux (leDigitsAux fuel n ++ t) acc mult = natParseAux t (acc + n * mult) m' := by
  induction fuel with
  | zero =>
    intro n t acc mult hn
    have hn0 : n = 0 := Nat.le_zero.mp hn
    subst hn0
    exact ⟨mult, by simp [leDigitsAux]⟩
  | succ fuel ih =>
    intro n t acc mult hn
    by_cases h0 : n = 0
    · subst h0
      exact ⟨mult, by simp [leDigitsAux]⟩
    · have hd : n % 10 < 10 := Nat.mod_lt _ (by norm_num)
      have hne := (digitChar_ne _ hd).1
      have hcd := charDigit_digitChar _ hd
      have hstep : leDigitsAux (fuel + 1) n = digitChar (n % 10) :: leDigitsAux fuel (n / 10) := by
        simp [leDigitsAux, h0]
      have hdiv : n / 10 ≤ fuel := by omega
      obtain ⟨m', hm'⟩ := ih (n / 10) t (acc + (n % 10) * mult) (mult * 10) hdiv
      refine ⟨m', ?_⟩
      rw [hstep, List.cons_append]
      rw [natParseAux_digit _ _ _ _ _ hne hcd, hm']
      congr 1
      have hsplit : n % 10 + 10 * (n / 10) = n := Nat.mod_add_div n 10
      calc acc + n % 10 * mult + n / 10 * (mult * 10)
          = acc + (n % 10 + 10 * (n / 10)) * mult := by ring
        _ = acc + n * mult := by rw [hsplit]

/-- Same digit-run lemma for the string-content parser. -/
theorem parseStrAux_leDigits (fuel : Nat) :
    ∀ (n : Nat) (t : Chars) (acc mult : Nat), n ≤ fuel →
      ∃ m', parseStrAux (leDigitsAux fuel n ++ t) acc mult = parseStrAux t (acc + n * mult) m' := by
  induction fuel with
  | zero =>
    intro n t acc mult hn
    have hn0 : n = 0 := Nat.le_zero.mp hn
    subst hn0
    exact ⟨mult, by simp [leDigitsAux]⟩
  | succ fuel ih =>
    intro n t acc mult hn
    by_cases h0 : n = 0
    · subst h0
      exact ⟨mult, by simp [leDigitsAux]⟩
    · have hd : n % 10 < 10 := Nat.mod_lt _ (by norm_num)
      obtain ⟨hne, hnc, -, -⟩ := digitChar_ne _ hd
      have hcd := charDigit_digitChar _ hd
      have hstep : leDigitsAux (fuel + 1) n = digitChar (n % 10) :: leDigitsAux fuel (n / 10) := by
        simp [leDigitsAux, h0]
      have hdiv : n / 10 ≤ fuel := by omega
      obtain ⟨m', hm'⟩ := ih (n / 10) t (acc + (n % 10) * mult) (mult * 10) hdiv
      refine ⟨m', ?_⟩
      rw [hstep, List.cons_append]
      rw [parseStrAux_digit _ _ _ _ _ hne hnc hcd, hm']
      congr 1
      have hsplit : n % 10 + 10 * (n / 10) = n := Nat.mod_add_div n 10
      calc acc + n % 10 * mult + n / 10 * (mult * 10)
          = acc + (n % 10 + 10 * (n / 10)) * mult := by ring
        _ = acc + n * mult := by rw [hsplit]

/-- Round-trip for the string coding. -/
theorem parseStrAux_encStr : ∀ (s : Chars) (t : Chars),
    parseStrAux (encStr s ++ t) 0 1 = some (s, t) := by
  intro s
  induction s with
  | nil => intro t; simp [encStr, parseStrAux]
  | cons c cs ih =>
    intro t
    have hassoc : encStr (c :: cs) ++ t = natLE c.toNat ++ ('c' :: (encStr cs ++ t)) := by
      simp [encStr]
    rw [hassoc]
    obtain ⟨m', hm'⟩ := parseStrAux_leDigits c.toNat c.toNat ('c' :: (encStr cs ++ t)) 0 1
      (Nat.le_refl _)
    rw [natLE] at *
    rw [hm']
    rw [parseStrAux, if_neg (by decide), if_pos rfl, ih t]
    simp [Char.ofNat_toNat]

/-- Round-trip for the integer coding. -/
theorem parseInt_encInt : ∀ (n : Int) (t : Chars), parseInt (encInt n ++ t) = some (n, t) := by
  intro n t
  by_cases hneg : n < 0
  · rw [encInt, if_pos hneg]
    obtain ⟨m', hm'⟩ := natParseAux_leDigits n.natAbs n.natAbs ('e' :: t) 0 1 (Nat.le_refl _)
    have hform : ('m' :: natLE n.natAbs ++ ['e']) ++ t
        = 'm' :: (leDigitsAux n.natAbs n.natAbs ++ ('e' :: t)) := by
      simp [natLE]
    have hrun : natParseAux (leDigitsAux n.natAbs n.natAbs ++ ('e' :: t)) 0 1
        = some (0 + n.natAbs * 1, t) := by rw [hm', natParseAux_e]
    rw [hform, parseInt_m, hrun]
    simp only [Option.some.injEq, Prod.mk.injEq]
    exact ⟨by omega, trivial⟩
  · have hnn : 0 ≤ n := by omega
    rw [encInt, if_neg hneg]
    by_cases h0 : n.toNat = 0
    · have hn0 : n = 0 := by omega
      subst hn0
      simp only [Int.toNat_zero, natLE, leDigitsAux, List.nil_append, List.singleton_append]
      rw [parseInt_not_m _ _ (by decide), natParseAux_e]
      simp
    · -- head of the digit run is a decimal digit, hence not 'm'
      have hstep : leDigitsAux n.toNat n.toNat
          = digitChar (n.toNat % 10) :: leDigitsAux (n.toNat - 1) (n.toNat / 10) := by
        cases hfe : n.toNat with
        | zero => exact absurd hfe h0
        | succ f =>
          rw [leDigitsAux, if_neg (by omega)]
          have hff : f = f + 1 - 1 := rfl
          rw [← hff]
      have hd : n.toNat % 10 < 10 := Nat.mod_lt _ (by norm_num)
      obtain ⟨hne, -, -, hnm⟩ := digitChar_ne _ hd
      have hcd := charDigit_digitChar _ hd
      have hform : (natLE n.toNat ++ ['e']) ++ t
          = digitChar (n.toNat % 10) :: (leDigitsAux (n.toNat - 1) (n.toNat / 10) ++ ('e' :: t)) := by
        rw [natLE, hstep]; simp
      obtain ⟨m2, hm2⟩ := natParseAux_leDigits (n.toNat - 1) (n.toNat / 10) ('e' :: t)
        (0 + (n.toNat % 10) * 1) (1 * 10) (by omega)
      have hrun : natParseAux (digitChar (n.toNat % 10)
            :: (leDigitsAux (n.toNat - 1) (n.toNat / 10) ++ ('e' :: t))) 0 1
          = some (0 + n.toNat % 10 * 1 + n.toNat / 10 * (1 * 10), t) := by
        rw [natParseAux_digit _ _ _ _ _ hne hcd, hm2, natParseAux_e]
      rw [hform, parseInt_not_m _ _ hnm, hrun]
      simp only [Option.some.injEq, Prod.mk.injEq]
      exact ⟨by omega, trivial⟩

theorem parseV_i (fuel : Nat) (rest : Chars) :
    parseV (fuel + 1) ('i' :: rest)
      = match parseInt rest with
        | some (n, r) => some (JVal.num n, r)
        | none => none := rfl

theorem parseV_s (fuel : Nat) (rest : Chars) :
    parseV (fuel + 1) ('s' :: rest)
      = match parseStrAux rest 0 1 with
        | some (s, r) => some (JVal.str ⟨s⟩, r)
        | none => none := rfl

theorem parseV_z (fuel : Nat) (rest : Chars) :
    parseV (fuel + 1) ('z' :: rest) = some (JVal.onil, rest) := rfl

theorem parseV_n (fuel : Nat) (rest : Chars) :
    parseV (fuel + 1) ('n' :: rest) = some (JVal.jnull, rest) := rfl

/-- Unfolding lemma: the fuelled parser on an `'o'`-headed input. -/
theorem parseV_o (fuel : Nat) (rest : Chars) :
    parseV (fuel + 1) ('o' :: rest)
      = match parseStrAux rest 0 1 with
        | none => none
        | some (k, r1) =>
          match parseV fuel r1 with
          | none => none
          | some (v, r2) =>
            match parseV fuel r2 with
            | none => none
            | some (restObj, r3) => some (JVal.ocons ⟨k⟩ v restObj, r3) := rfl

/-- Round-trip for the JSON-value coding: with enough fuel, parsing the
encoding of `v` followed by any tail returns `v` and the tail. -/
theorem parseV_encV : ∀ (v : JVal) (fuel : Nat) (t : Chars), jsize v ≤ fuel →
    parseV fuel (encV v ++ t) = some (v, t) := by
  intro v
  induction v with
  | jnull =>
    intro fuel t hf
    cases fuel with
    | zero => simp [jsize] at hf
    | succ fuel =>
      show parseV (fuel + 1) ('n' :: t) = _
      rw [parseV_n]
  | num n =>
    intro fuel t hf
    cases fuel with
    | zero => simp [jsize] at hf
    | succ fuel =>
      show parseV (fuel + 1) ('i' :: (encInt n ++ t)) = _
      rw [parseV_i, parseInt_encInt]
  | str s =>
    intro fuel t hf
    cases fuel with
    | zero => simp [jsize] at hf
    | succ fuel =>
      show parseV (fuel + 1) ('s' :: (encStr s.data ++ t)) = _
      rw [parseV_s, parseStrAux_encStr]
  | onil =>
    intro fuel t hf
    cases fuel with
    | zero => simp [jsize] at hf
    | succ fuel =>
      show parseV (fuel + 1) ('z' :: t) = _
      rw [parseV_z]
  | ocons k v rest ihv ihrest =>
    intro fuel t hf
    cases fuel with
    | zero => simp [jsize] at hf
    | succ fuel =>
      have hv : jsize v ≤ fuel := by
        simp [jsize] at hf
        omega
      have hrest : jsize rest ≤ fuel := by
        simp [jsize] at hf
        omega
      have hassoc : encV (JVal.ocons k v rest) ++ t
          = 'o' :: (encStr k.data ++ (encV v ++ (encV rest ++ t))) := by
        simp [encV]
      rw [hassoc, parseV_o, parseStrAux_encStr]
      simp only [ihv fuel _ hv, ihrest fuel _ hrest]

/-- The fuel bound is satisfied by the encoding length. -/
theorem jsize_le_length : ∀ v : JVal, jsize v ≤ (encV v).length := by
  intro v
  induction v with
  | jnull => simp [jsize, encV]
  | num n => simp [jsize, encV]
  | str s => simp [jsize, encV]
  | onil => simp [jsize, encV]
  | ocons k v rest ihv ihrest =>
    have hk : 1 ≤ (encStr k.data).length := by
      cases h : k.data with
      | nil => simp [encStr]
      | cons c cs =>
        simp only [encStr, List.length_append, List.length_cons]
        omega
    simp only [jsize, encV, List.length_cons, List.length_append]
    omega

/-- Full round-trip of the segment codec. -/
theorem deserialize_encV (v : JVal) : deserialize (encV v) = some v := by
  have h := parseV_encV v ((encV v).length + 1) []
    (Nat.le_trans (jsize_le_length v) (Nat.le_succ _))
  rw [List.append_nil] at h
  rw [deserialize, h]

/-! ## The coding alphabet contains no dot -/

theorem dot_notin_leDigitsAux (fuel : Nat) : ∀ n, '.' ∉ leDigitsAux fuel n := by
  induction fuel with
  | zero => intro n; simp [leDigitsAux]
  | succ fuel ih =>
    intro n
    by_cases h0 : n = 0
    · simp [leDigitsAux, h0]
    · rw [leDigitsAux, if_neg h0]
      intro hmem
      rcases List.mem_cons.mp hmem with h | h
      · exact (digitChar_ne _ (Nat.mod_lt _ (by norm_num))).2.2.1 h.symm
      · exact ih (n / 10) h

theorem dot_notin_encStr : ∀ s : Chars, '.' ∉ encStr s := by
  intro s
  induction s with
  | nil => simp [encStr]
  | cons c cs ih =>
    rw [encStr]
    intro hmem
    rcases List.mem_append.mp hmem with h | h
    · exact dot_notin_leDigitsAux _ _ h
    · rcases List.mem_cons.mp h with h | h
      · exact absurd h (by decide)
      · exact ih h

theorem dot_notin_encInt (n : Int) : '.' ∉ encInt n := by
  by_cases hneg : n < 0
  · rw [encInt, if_pos hneg]
    intro hmem
    rcases List.mem_cons.mp hmem with h | h
    · exact absurd h (by decide)
    · rcases List.mem_append.mp h with h | h
      · exact dot_notin_leDigitsAux _ _ h
      · exact absurd h (by decide)
  · rw [encInt, if_neg hneg]
    intro hmem
    rcases List.mem_append.mp hmem with h | h
    · exact dot_notin_leDigitsAux _ _ h
    · exact absurd h (by decide)

theorem dot_notin_encV : ∀ v : JVal, '.' ∉ encV v := by
  intro v
  induction v with
  | jnull => simp [encV]
  | num n =>
    intro hmem
    rcases List.mem_cons.mp hmem with h | h
    · exact absurd h (by decide)
    · exact dot_notin_encInt n h
  | str s =>
    intro hmem
    rcases List.mem_cons.mp hmem with h | h
    · exact absurd h (by decide)
    · exact dot_notin_encStr _ h
  | onil => simp [encV]
  | ocons k v rest ihv ihrest =>
    intro hmem
    rcases List.mem_cons.mp hmem with h | h
    · exact absurd h (by decide)
    · rcases List.mem_append.mp h with h | h
      · exact dot_notin_encStr _ h
      · rcases List.mem_append.mp h with h | h
        · exact ihv h
        · exact ihrest h

/-! ## Splitting on dots (model of `String.split('.')`) -/

/-- Split a character list at every `'.'` (the model of
`decodeURIComponent(token).split('.')`; the URI escaping pair composes to
the identity). The result is always nonempty. -/
def splitDots : Chars → List Chars
  | [] => [[]]
  | c :: rest =>
    match splitDots rest with
    | [] => [[]]
    | s :: ss => if c = '.' then [] :: s :: ss else (c :: s) :: ss

theorem splitDots_ne_nil : ∀ cs : Chars, splitDots cs ≠ [] := by
  intro cs
  induction cs with
  | nil => simp [splitDots]
  | cons c rest ih =>
    rw [splitDots]
    match h : splitDots rest with
    | [] => simp
    | s :: ss =>
      by_cases hc : c = '.' <;> simp [hc]

/-- A dot-free list splits to itself. -/
theorem splitDots_no_dot : ∀ cs : Chars, '.' ∉ cs → splitDots cs = [cs] := by
  intro cs
  induction cs with
  | nil => intro _; rfl
  | cons c rest ih =>
    intro h
    simp only [List.mem_cons, not_or] at h
    have hc : c ≠ '.' := fun hcc => h.1 hcc.symm
    rw [splitDots, ih h.2]
    simp [hc]

/-- Splitting at an explicit dot with a dot-free prefix. -/
theorem splitDots_append (a b : Chars) (ha : '.' ∉ a) :
    splitDots (a ++ '.' :: b) = a :: splitDots b := by
  induction a with
  | nil =>
    rw [List.nil_append, splitDots]
    match h : splitDots b with
    | [] => exact absurd h (splitDots_ne_nil b)
    | s :: ss => simp [h]
  | cons c rest ih =>
    simp only [List.mem_cons, not_or] at ha
    have hc : c ≠ '.' := fun hcc => ha.1 hcc.symm
    rw [List.cons_append, splitDots, ih ha.2]
    simp [hc]

/-! ## The HMAC model

`crypto.createHmac('sha512', String(key)).update(msg).digest(enc)` is a
deterministic function of the key and the message.  It is modelled as an
ideal MAC: an injective coding of the pair, over the dot-free coding
alphabet (base64 and hex outputs contain no `'.'` either); the base64 and
hex digest variants are distinct tags. -/

/-- Model of `crypto.createHmac('sha512', key).update(msg).digest('base64')`. -/
def hmacB64 (key msg : Chars) : Chars := 'h' :: (encStr key ++ encStr msg)

/-- Model of `crypto.createHmac('sha512', key).update(msg).digest('hex')`. -/
def hmacHex (key msg : String) : String := ⟨'x' :: (encStr key.data ++ encStr msg.data)⟩

theorem dot_notin_hmacB64 (key msg : Chars) : '.' ∉ hmacB64 key msg := by
  intro hmem
  rcases List.mem_cons.mp hmem with h | h
  · exact absurd h (by decide)
  · rcases List.mem_append.mp h with h | h
    · exact dot_notin_encStr _ h
    · exact dot_notin_encStr _ h

/-! ## The `Token` class (`src/core/lib/token.mjs`) -/

/-- Result of `Token.decode` on success (the `TokenBody` typedef of the
source: `{header, body, sign}`). -/
structure TokenBody where
  header : JVal
  body : JVal
  sign : String
deriving DecidableEq, Repr

/-- The `Result` typedef of the source: `{success, message}`. -/
structure Result where
  success : Bool
  message : String
deriving DecidableEq, Repr

/-- Message `"Токен поврежден"` — returned when decoding fails (CORRUPTED). -/
def MSG_CORRUPTED : String := "Токен поврежден"

/-- Message `"Время действия токена истекло"` — expired token (EXPIRED). -/
def MSG_EXPIRED : String := "Время действия токена истекло"

/-- Message `"Недействительный токен"` — signature mismatch (INVALID). -/
def MSG_INVALID : String := "Недействительный токен"

/-- Message `"Действительный токен"` — valid token (VALID). -/
def MSG_VALID : String := "Действительный токен"

/-- Message `"Ошибка проверки токена"` — the catch arm of `validate`
(lines 123–126), reached when the try-block raises: with a decoded body of
JSON `null`, the property read `data.body.exp` throws `TypeError`. -/
def MSG_ERROR : String := "Ошибка проверки токена"

/-- The class-level config object `Token.#CONFIG`: `{DOMAIN, LTT, LTRT}`
(issuer domain, access-token lifetime in days, refresh-token lifetime in
days). -/
structure Config where
  DOMAIN : String
  LTT : Int
  LTRT : Int
deriving DecidableEq, Repr

/-- The `user` argument of `verify`/`generate`: a JS object modelled as its
own enumerable properties, in insertion order. -/
structure User where
  fields : List (String × JVal)
deriving DecidableEq, Repr

/-- The capability check `user.hasOwnProperty(k)`. -/
def User.hasOwn (u : User) (k : String) : Bool := (u.fields.lookup k).isSome

/-- Property read `obj[k]` on a parsed JSON object: JS objects keep the
last assignment for a repeated key (as `JSON.parse` does), so the lookup
prefers later fields; reading any key off a non-object yields `undefined`
(`none`). -/
def jget (j : JVal) (key : String) : Option JVal :=
  match j with
  | .ocons k v rest =>
    match jget rest key with
    | some r => some r
    | none => if k = key then some v else none
  | _ => none

/-- JS loose equality `==` restricted to the values this subsystem
compares: `null == null` holds; numbers and strings compare structurally;
two distinct objects are never `==` (JS compares object references, and a
freshly parsed payload object is never the caller's object); `null` equals
no number, string or object.  The numeric-string coercion cases of `==`
(e.g. `"1" == 1`) are outside the modelled value shapes. -/
def jsEq : JVal → JVal → Bool
  | .jnull, .jnull => true
  | .num a, .num b => a == b
  | .str a, .str b => a == b
  | _, _ => false

/-- Loose equality where either side may be `undefined` (`none`):
`undefined == undefined` and `null == undefined` hold; `undefined == v`
fails for every other value. -/
def jsEqOpt : Option JVal → Option JVal → Bool
  | none, none => true
  | none, some .jnull => true
  | some .jnull, none => true
  | some a, some b => jsEq a b
  | _, _ => false

/-- The object iterated by `for (let key in infoAccess.body.data)`: the
`data` property of the payload if present; a `for...in` over `undefined`
or a number performs no iterations, modelled as the empty object.
(A `for...in` over a primitive string iterates its character indices; no
claim depends on that exotic case and it is not modelled.) -/
def jdata (body : JVal) : JVal :=
  match jget body "data" with
  | some j => j
  | none => .onil

/-- The loop `for (let k in j) { if (!(p k j[k])) return false }; true` — iterate
the fields of an object value. -/
def jfieldsAll (j : JVal) (p : String → JVal → Bool) : Bool :=
  match j with
  | .ocons k v rest => p k v && jfieldsAll rest p
  | _ => true

/-- Source `Token.encode(data, key)` (lines 48–67): with a non-empty key, build
`header = {alg:'SHA256'}`, serialize header and payload as the first two
segments, sign their dot-joined concatenation with HMAC-SHA512/base64 as
the third segment, and return the percent-encoded join.  An empty key (or
a serialization failure) yields the `false` sentinel (`none`). -/
def headerJ : JVal := .ocons "alg" (.str "SHA256") .onil

def Token.encode (data : JVal) (key : String) : Option String :=
  if key ≠ "" then
    let seg0 := encV headerJ
    let seg1 := encV data
    let dataSign := seg0 ++ '.' :: seg1
    let sign := hmacB64 key.data dataSign
    some ⟨dataSign ++ '.' :: sign⟩
  else none

/-- Source `Token.decode(token)` (lines 76–92): reject empty input; split the
percent-decoded token on `'.'`; fewer than three segments is the `false`
sentinel; parse the first two segments as base64-coded JSON (any parse
failure is caught and becomes the sentinel); the third segment is kept
opaque as the stored signature. -/
def Token.decode (token : String) : Option TokenBody :=
  if token = "" then none
  else
    match splitDots token.data with
    | s0 :: s1 :: s2 :: _ =>
      match deserialize s0, deserialize s1 with
      | some h, some b => some ⟨h, b, ⟨s2⟩⟩
      | _, _ => none
    | _ => none

/-- The test `data.body.exp < time.timestamp` — the payload's `exp` property read
and compared; an absent (or non-numeric) `exp` makes the comparison false,
as `undefined < n` is false in JS; an `exp` of JSON `null` coerces to `0`
under the JS `<` operator.  (This read is also the throw site of
`validate`: when `body` itself is `null`, the access raises `TypeError` —
that case is handled by the null guard in the caller; `jget .jnull` is
`none` and never reaches the comparison.) -/
def expLt (body : JVal) (now : Int) : Bool :=
  match jget body "exp" with
  | some (.num e) => decide (e < now)
  | some .jnull => decide (0 < now)
  | _ => false

/-- The signature recomputed by `validate` (lines 113–118): HMAC-SHA512 of
the first two dot-separated segments of the token under `key`. -/
def recomputeSig (key token : String) : Chars :=
  let segments := splitDots token.data
  hmacB64 key.data (segments.getD 0 [] ++ '.' :: segments.getD 1 [])

/-- Source `Token.validate(token, key)` (lines 103–127): decode; on failure report
CORRUPTED; if the decoded body is JSON `null`, the read `data.body.exp` at
line 110 throws `TypeError` and the catch arm (lines 123–126) reports the
ERROR result; if the payload's `exp` is in the past report EXPIRED (with
`success: true`); if the recomputed signature differs from the stored third
segment report INVALID; otherwise VALID.  `now` is the clock reading
`new Time().timestamp`. -/
def Token.validate (now : Int) (token key : String) : Result :=
  match Token.decode token with
  | none => ⟨false, MSG_CORRUPTED⟩
  | some data =>
    if data.body = JVal.jnull then ⟨false, MSG_ERROR⟩
    else if expLt data.body now then ⟨true, MSG_EXPIRED⟩
    else if data.sign.data ≠ recomputeSig key token then ⟨false, MSG_INVALID⟩
    else ⟨true, MSG_VALID⟩

/-- The identity-binding loop of `verify` (lines 149–152): every key of the
access payload's `data` object must compare loosely equal to the same-named
property of `user`. -/
def bindingOk (body : JVal) (u : User) : Bool :=
  jfieldsAll (jdata body) (fun k v => jsEqOpt (some v) (u.fields.lookup k))

/-- The access/refresh cross-check of `verify` (lines 158–161): every key of
the access payload's `data` must compare loosely equal to the same-named
property of the refresh payload's `data`. -/
def crossOk (accessBody refreshBody : JVal) : Bool :=
  jfieldsAll (jdata accessBody) (fun k v => jsEqOpt (some v) (jget (jdata refreshBody) k))

/-- Whether the loop `for (let key in infoAccess.body.data)` performs at
least one iteration: exactly when the iterated value is a nonempty
object. -/
def dataIterates (accessBody : JVal) : Bool :=
  match jdata accessBody with
  | .ocons _ _ _ => true
  | _ => false

/-- Whether the read `infoRefresh.body.data[key]` (line 159) raises
`TypeError`: it does when `infoRefresh.body` is `null` (the `.data` access
throws), when `infoRefresh.body.data` is absent (`undefined[key]` throws),
and when it is `null` (`null[key]` throws); indexing a number, string or
object merely yields `undefined` or the field. -/
def refreshReadThrows (refreshBody : JVal) : Bool :=
  match jget refreshBody "data" with
  | some .jnull => true
  | some _ => false
  | none => true

/-- Source `Token.verify(user, accessKey, accessToken, refreshKey, refreshToken)`
(lines 142–174): decode the access token (false on failure); require the
`userId`/`userKey`/`userRkey` capabilities on `user`; a decoded body of
JSON `null` makes the loop head `infoAccess.body.data` (line 149) throw
`TypeError`, caught at line 170 — false; require the identity-binding;
validate the access token — a `success` result is accepted outright;
otherwise, when a refresh pair was supplied, decode the refresh token
(false on failure); if the access `data` iterates and the refresh-side
read `infoRefresh.body.data[key]` throws, the catch returns false;
cross-check the payloads' `data` (false on mismatch); answer with the
refresh validation's `success` flag; with no refresh pair, false. -/
def Token.verify (now : Int) (user : User) (accessKey accessToken : String)
    (refreshKey refreshToken : Option String) : Bool :=
  match Token.decode accessToken with
  | none => false
  | some infoAccess =>
    if !(user.hasOwn "userId" && user.hasOwn "userKey" && user.hasOwn "userRkey") then false
    else if infoAccess.body = JVal.jnull then false
    else if !(bindingOk infoAccess.body user) then false
    else if !(Token.validate now accessToken accessKey).success then
      match refreshKey, refreshToken with
      | some rk, some rt =>
        (match Token.decode rt with
         | none => false
         | some infoRefresh =>
           if dataIterates infoAccess.body && refreshReadThrows infoRefresh.body then false
           else if !(crossOk infoAccess.body infoRefresh.body) then false
           else (Token.validate now rt rk).success)
      | _, _ => false
    else true

/-- The result object of `Token.generate` on success: `{success: 1,
accessToken, dateAccess}`, plus `{refreshToken, dateRefresh}` when a
refresh key was supplied. -/
structure GenResult where
  accessToken : String
  dateAccess : Int
  refreshToken : Option String
  dateRefresh : Option Int
deriving DecidableEq, Repr

/-- The payload object built by `generate` (lines 198–203):
`{iss, gen, exp, data}`. -/
def payloadJ (iss : String) (gen exp : Int) (dataJ : JVal) : JVal :=
  .ocons "iss" (.str iss)
    (.ocons "gen" (.num gen)
      (.ocons "exp" (.num exp)
        (.ocons "data" dataJ .onil)))

/-- A JS object's enumerable fields as a JSON object value. -/
def fieldsJ : List (String × JVal) → JVal
  | [] => .onil
  | (k, v) :: rest => .ocons k v (fieldsJ rest)

/-- The `user` object serialized as the payload's `data` property. -/
def userJ (u : User) : JVal := fieldsJ u.fields

/-- Source `Token.generate(user, accessKey, refreshKey)` (lines 194–220), with the
state of the caller's `user` object threaded explicitly so that the frame
property (no mutation of `user`) is expressible: the only assignment in the
source, `data.exp = ...`, writes the wrapper object's own `exp` slot (a
functional payload update here); `user` is read, never written.  A failed
`encode` (empty key) raises, and the boundary catch turns it into the
`false` sentinel (`none`). -/
def Token.generateSt (cfg : Config) (now : Int) (user : User)
    (accessKey refreshKey : String) : Option GenResult × User :=
  let exp := now + 3600 * 1000 * 24 * cfg.LTT
  let dataJ := payloadJ cfg.DOMAIN now exp (userJ user)
  match Token.encode dataJ accessKey with
  | none => (none, user)
  | some token =>
    if refreshKey ≠ "" then
      let dateAccess := exp
      let exp2 := now + 3600 * 1000 * 24 * cfg.LTRT
      let dataJ2 := payloadJ cfg.DOMAIN now exp2 (userJ user)
      match Token.encode dataJ2 refreshKey with
      | none => (none, user)
      | some rtoken => (some ⟨token, dateAccess, some rtoken, some exp2⟩, user)
    else (some ⟨token, exp, none, none⟩, user)

/-- The value `Token.generate` hands back to its caller. -/
def Token.generate (cfg : Config) (now : Int) (user : User)
    (accessKey refreshKey : String) : Option GenResult :=
  (Token.generateSt cfg now user accessKey refreshKey).1

/-- The `{id, create}` object built by `generateCsrf` and re-supplied by the
caller to `verifyCsrf`. -/
structure CsrfData where
  id : String
  create : Int
deriving DecidableEq, Repr

/-- Model of `JSON.stringify({id, create})` — the canonical serialization
of the CSRF data object that both `generateCsrf` and `verifyCsrf` digest. -/
def csrfJson (d : CsrfData) : String :=
  ⟨encV (.ocons "id" (.str d.id) (.ocons "create" (.num d.create) .onil))⟩

/-- The result object of `Token.generateCsrf`: `{csrfToken, timeCreate}`. -/
structure CsrfResult where
  csrfToken : String
  timeCreate : Int
deriving DecidableEq, Repr

/-- Source `Token.generateCsrf(id, csrfKey)` (lines 231–242): build
`{id, create: now}`, sign its JSON with HMAC-SHA512/hex, return the token
with the creation timestamp.  (For string arguments neither the digest nor
the serialization can throw, so the catch arm is unreachable.) -/
def Token.generateCsrf (now : Int) (id csrfKey : String) : CsrfResult :=
  ⟨hmacHex csrfKey (csrfJson ⟨id, now⟩), now⟩

/-- Source `Token.verifyCsrf(key, data, token)` (lines 251–259): recompute the hex
HMAC-SHA512 of `JSON.stringify(data)` under `key` and compare with `token`. -/
def Token.verifyCsrf (key : String) (data : CsrfData) (token : String) : Bool :=
  token == hmacHex key (csrfJson data)

/-! ## The exception boundary of `decode`

The try-block of `Token.decode` re-expressed with the throwing stdlib
primitives (`atob` / `JSON.parse` throw on invalid input) made explicit as
`Except.error`; the `catch` clause of the source converts any raised error
into the `false` sentinel. -/

/-- The call `JSON.parse(atob s)` as a throwing computation. -/
def deserializeE (cs : Chars) : Except String JVal :=
  match deserialize cs with
  | some v => .ok v
  | none => .error "SyntaxError"

/-- The try-block of `Token.decode` (lines 77–87): the explicit `false`
returns are `ok none`, a raised parse error is `error`. -/
def Token.decodeE (token : String) : Except String (Option TokenBody) :=
  if token = "" then .ok none
  else
    match splitDots token.data with
    | s0 :: s1 :: s2 :: _ =>
      match deserializeE s0 with
      | .error e => .error e
      | .ok h =>
        match deserializeE s1 with
        | .error e => .error e
        | .ok b => .ok (some ⟨h, b, ⟨s2⟩⟩)
    | _ => .ok none

/-- The try-block of `Token.encode` (lines 49–63): for string keys and
modelled payloads none of its primitives (`JSON.stringify`, `btoa`,
`createHmac`) can raise, so the body never errors; the empty-key `false`
result is an ordinary return, not a catch. -/
def Token.encodeE (data : JVal) (key : String) : Except String (Option String) :=
  if key ≠ "" then
    let seg0 := encV headerJ
    let seg1 := encV data
    let dataSign := seg0 ++ '.' :: seg1
    let sign := hmacB64 key.data dataSign
    .ok (some ⟨dataSign ++ '.' :: sign⟩)
  else .ok none

/-- The try-block of `Token.validate` (lines 104–122): `decode` is the
public, self-catching operation and cannot raise here; the one throw site
is the read `data.body.exp` on a JSON-`null` body (line 110). -/
def Token.validateE (now : Int) (token key : String) : Except String Result :=
  match Token.decode token with
  | none => .ok ⟨false, MSG_CORRUPTED⟩
  | some data =>
    if data.body = JVal.jnull then .error "TypeError"
    else if expLt data.body now then .ok ⟨true, MSG_EXPIRED⟩
    else if data.sign.data ≠ recomputeSig key token then .ok ⟨false, MSG_INVALID⟩
    else .ok ⟨true, MSG_VALID⟩

/-- The try-block of `Token.verify` (lines 143–169): the throw sites are
the loop head `infoAccess.body.data` on a null access body (line 149) and
the indexed read `infoRefresh.body.data[key]` (line 159). -/
def Token.verifyE (now : Int) (user : User) (accessKey accessToken : String)
    (refreshKey refreshToken : Option String) : Except String Bool :=
  match Token.decode accessToken with
  | none => .ok false
  | some infoAccess =>
    if !(user.hasOwn "userId" && user.hasOwn "userKey" && user.hasOwn "userRkey") then
      .ok false
    else if infoAccess.body = JVal.jnull then .error "TypeError"
    else if !(bindingOk infoAccess.body user) then .ok false
    else if !(Token.validate now accessToken accessKey).success then
      match refreshKey, refreshToken with
      | some rk, some rt =>
        (match Token.decode rt with
         | none => .ok false
         | some infoRefresh =>
           if dataIterates infoAccess.body && refreshReadThrows infoRefresh.body then
             .error "TypeError"
           else if !(crossOk infoAccess.body infoRefresh.body) then .ok false
           else .ok (Token.validate now rt rk).success)
      | _, _ => .ok false
    else .ok true

/-- The try-block of `Token.generate` (lines 196–215): a failed `encode`
triggers an explicit `throw new Error(...)` (lines 205 and 211). -/
def Token.generateE (cfg : Config) (now : Int) (user : User)
    (accessKey refreshKey : String) : Except String GenResult :=
  let exp := now + 3600 * 1000 * 24 * cfg.LTT
  let dataJ := payloadJ cfg.DOMAIN now exp (userJ user)
  match Token.encode dataJ accessKey with
  | none => .error "В объекте user отсутствует ключ для генерации access_token"
  | some token =>
    if refreshKey ≠ "" then
      let dateAccess := exp
      let exp2 := now + 3600 * 1000 * 24 * cfg.LTRT
      let dataJ2 := payloadJ cfg.DOMAIN now exp2 (userJ user)
      match Token.encode dataJ2 refreshKey with
      | none => .error "В объекте user отсутствует ключ для генерации refresh_token"
      | some rtoken => .ok ⟨token, dateAccess, some rtoken, some exp2⟩
    else .ok ⟨token, exp, none, none⟩

/-- The try-block of `Token.generateCsrf` (lines 232–238): for string
arguments neither `JSON.stringify` nor the digest can raise, so the catch
arm — which would return `undefined` — is unreachable. -/
def Token.generateCsrfE (now : Int) (id csrfKey : String) : Except String CsrfResult :=
  .ok ⟨hmacHex csrfKey (csrfJson ⟨id, now⟩), now⟩

/-- The try-block of `Token.verifyCsrf` (lines 252–254): total for string
arguments; the catch arm returning `false` is unreachable. -/
def Token.verifyCsrfE (key : String) (data : CsrfData) (token : String) : Except String Bool :=
  .ok (token == hmacHex key (csrfJson data))

/-! ## Claims -/

/-- C1 counterexample: the claim "validate returns exactly one of four
results" fails on the program.  The token `"z.n."` decodes (its body
segment is the coding of JSON `null`, which `JSON.parse` accepts), the
read `data.body.exp` then throws `TypeError`, and the catch arm returns a
fifth result `{success:false, "Ошибка проверки токена"}`, different from
all four of CORRUPTED / EXPIRED / INVALID / VALID. -/
theorem validate_null_body_counterexample :
    Token.decode "z.n." = some ⟨JVal.onil, JVal.jnull, ""⟩ ∧
    Token.validate 0 "z.n." "k" = ⟨false, MSG_ERROR⟩ ∧
    Token.validate 0 "z.n." "k" ≠ ⟨false, MSG_CORRUPTED⟩ ∧
    Token.validate 0 "z.n." "k" ≠ ⟨true, MSG_EXPIRED⟩ ∧
    Token.validate 0 "z.n." "k" ≠ ⟨false, MSG_INVALID⟩ ∧
    Token.validate 0 "z.n." "k" ≠ ⟨true, MSG_VALID⟩ := by decide

/-- C1 (amended): for every token string and key, `validate` returns
exactly one of five results — CORRUPTED (`success:false`) when decoding
fails; otherwise the caught-`TypeError` result
`{success:false, "Ошибка проверки токена"}` when the decoded body is JSON
`null` (reading its `exp` throws, and the catch at lines 123–126
answers); otherwise EXPIRED (`success:true`) when the decoded payload's
`exp` is below the current time; otherwise INVALID (`success:false`) when
the HMAC-SHA512 signature recomputed with the key over the first two
segments differs from the stored third segment; otherwise VALID
(`success:true`). -/
theorem validate_five_outcomes (now : Int) (t k : String) :
    (Token.decode t = none ∧ Token.validate now t k = ⟨false, MSG_CORRUPTED⟩)
  ∨ (∃ d, Token.decode t = some d ∧ d.body = JVal.jnull ∧
      Token.validate now t k = ⟨false, MSG_ERROR⟩)
  ∨ (∃ d, Token.decode t = some d ∧ d.body ≠ JVal.jnull ∧ expLt d.body now = true ∧
      Token.validate now t k = ⟨true, MSG_EXPIRED⟩)
  ∨ (∃ d, Token.decode t = some d ∧ d.body ≠ JVal.jnull ∧ expLt d.body now = false ∧
      d.sign.data ≠ recomputeSig k t ∧ Token.validate now t k = ⟨false, MSG_INVALID⟩)
  ∨ (∃ d, Token.decode t = some d ∧ d.body ≠ JVal.jnull ∧ expLt d.body now = false ∧
      d.sign.data = recomputeSig k t ∧ Token.validate now t k = ⟨true, MSG_VALID⟩) := by
  cases hdec : Token.decode t with
  | none =>
    exact Or.inl ⟨rfl, by simp [Token.validate, hdec]⟩
  | some d =>
    by_cases hnull : d.body = JVal.jnull
    · refine Or.inr (Or.inl ⟨d, rfl, hnull, ?_⟩)
      simp only [Token.validate, hdec]
      rw [if_pos hnull]
    · by_cases hexp : expLt d.body now = true
      · refine Or.inr (Or.inr (Or.inl ⟨d, rfl, hnull, hexp, ?_⟩))
        simp only [Token.validate, hdec]
        rw [if_neg hnull, if_pos hexp]
      · have hexp' : expLt d.body now = false := by
          cases h : expLt d.body now
          · rfl
          · exact absurd h hexp
        by_cases hsig : d.sign.data = recomputeSig k t
        · refine Or.inr (Or.inr (Or.inr (Or.inr ⟨d, rfl, hnull, hexp', hsig, ?_⟩)))
          simp only [Token.validate, hdec]
          rw [if_neg hnull, if_neg hexp, if_neg (by simpa using hsig)]
        · refine Or.inr (Or.inr (Or.inr (Or.inl ⟨d, rfl, hnull, hexp', hsig, ?_⟩)))
          simp only [Token.validate, hdec]
          rw [if_neg hnull, if_neg hexp, if_pos hsig]

/-- C2: for an identity exposing `userId`, `userKey` and `userRkey`, and an
access token that decodes and whose payload `data` fields all match the
same-named identity fields, a `validate` result with `success = true`
(VALID or EXPIRED) makes `verify` return true for every refresh-key and
refresh-token argument — the refresh pair is never consulted. -/
theorem verify_true_on_access_success (now : Int) (u : User)
    (accessKey accessToken : String) (info : TokenBody)
    (hdec : Token.decode accessToken = some info)
    (h1 : u.hasOwn "userId" = true) (h2 : u.hasOwn "userKey" = true)
    (h3 : u.hasOwn "userRkey" = true)
    (hbind : bindingOk info.body u = true)
    (hval : (Token.validate now accessToken accessKey).success = true) :
    ∀ (refreshKey refreshToken : Option String),
      Token.verify now u accessKey accessToken refreshKey refreshToken = true := by
  intro rk rt
  have hnull : info.body ≠ JVal.jnull := by
    intro hb
    have herr : Token.validate now accessToken accessKey = ⟨false, MSG_ERROR⟩ := by
      simp only [Token.validate, hdec]
      rw [if_pos hb]
    rw [herr] at hval
    simp at hval
  simp [Token.verify, hdec, h1, h2, h3, hnull, hbind, hval]

/-- Body of the expired witness token: `{exp: 0}`. -/
def bodyExpW : JVal := .ocons "exp" (.num 0) .onil

/-- A decodable token whose payload has `exp = 0` and whose signature
segment is empty (hence matches no recomputed signature). -/
def tokExpW : String := ⟨'z' :: '.' :: (encV bodyExpW ++ ['.'])⟩

/-- What `tokExpW` decodes to. -/
def infoExpW : TokenBody := ⟨.onil, bodyExpW, ""⟩

/-- An identity exposing the three required fields. -/
def userW : User := ⟨[("userId", .str "u"), ("userKey", .str "k"), ("userRkey", .str "r")]⟩

/-- Witness for C2: a concrete identity and a concrete expired token (so
`validate` reports `success:true` with reason EXPIRED) on which `verify`
returns true with no refresh pair supplied. -/
theorem verify_true_on_access_success_witness :
    Token.verify 7 userW "anyKey" tokExpW none none = true :=
  verify_true_on_access_success 7 userW "anyKey" tokExpW infoExpW
    (by decide) (by decide) (by decide) (by decide) (by decide) (by decide) none none

/-- C5 (first half proved here, together with the `verify` consequence):
`validate` checks expiry before the signature, so an expired decodable
token validates as `{success:true, EXPIRED}` under every key, including
keys for which the stored signature is wrong; consequently `verify`
accepts an expired access token under any access key, provided the
capability and identity-binding checks pass, with no signature ever
verified. -/
theorem validate_expired_before_signature (now : Int) (t : String) (d : TokenBody)
    (hdec : Token.decode t = some d) (hexp : expLt d.body now = true) :
    (∀ k, Token.validate now t k = ⟨true, MSG_EXPIRED⟩) ∧
    (∀ (u : User) (ak : String) (rk rt : Option String),
      u.hasOwn "userId" = true → u.hasOwn "userKey" = true →
      u.hasOwn "userRkey" = true → bindingOk d.body u = true →
      Token.verify now u ak t rk rt = true) := by
  have hnull : d.body ≠ JVal.jnull := by
    intro hb
    rw [hb] at hexp
    simp [expLt, jget] at hexp
  have hval : ∀ k, Token.validate now t k = ⟨true, MSG_EXPIRED⟩ := by
    intro k
    simp only [Token.validate, hdec]
    rw [if_neg hnull, if_pos hexp]
  refine ⟨hval, ?_⟩
  intro u ak rk rt h1 h2 h3 hbind
  simp [Token.verify, hdec, h1, h2, h3, hnull, hbind, hval ak]

/-- Witness for C5: the concrete expired token `tokExpW` whose signature
segment is empty — wrong under every key — still validates with
`success:true` and passes `verify` under an arbitrary key. -/
theorem validate_expired_before_signature_witness :
    Token.validate 5 tokExpW "someWrongKey" = ⟨true, MSG_EXPIRED⟩ ∧
    Token.verify 5 userW "someWrongKey" tokExpW none none = true := by
  have h := validate_expired_before_signature 5 tokExpW infoExpW (by decide) (by decide)
  exact ⟨h.1 "someWrongKey",
    h.2 userW "someWrongKey" none none (by decide) (by decide) (by decide) (by decide)⟩

/-- C6: whenever the identity object lacks one of the own-properties
`userId`, `userKey`, `userRkey`, `verify` returns false for all token and
key arguments, regardless of token validity. -/
theorem verify_false_without_capabilities (now : Int) (u : User)
    (accessKey accessToken : String) (refreshKey refreshToken : Option String)
    (h : u.hasOwn "userId" = false ∨ u.hasOwn "userKey" = false ∨
      u.hasOwn "userRkey" = false) :
    Token.verify now u accessKey accessToken refreshKey refreshToken = false := by
  cases hdec : Token.decode accessToken with
  | none => simp [Token.verify, hdec]
  | some info =>
    rcases h with h | h | h <;> simp [Token.verify, hdec, h]

/-- Witness for C6: the empty identity is rejected even with a perfectly
decodable (expired, hence `success:true`-validating) token. -/
theorem verify_false_without_capabilities_witness :
    Token.verify 5 ⟨[]⟩ "k" tokExpW none none = false :=
  verify_false_without_capabilities 5 ⟨[]⟩ "k" tokExpW none none (Or.inl (by decide))

/-- C3: for every payload and non-empty key, `decode (encode P K)` succeeds,
reproduces the header `{alg:"SHA256"}` and the body `P` exactly, and the
returned `sign` field is the base64 HMAC-SHA512 of `K` over
`b64(header) ++ "." ++ b64(payload)`. -/
theorem decode_encode_roundtrip (P : JVal) (K : String) (hK : K ≠ "") :
    ∃ t, Token.encode P K = some t ∧
      Token.decode t
        = some ⟨headerJ, P, ⟨hmacB64 K.data (encV headerJ ++ '.' :: encV P)⟩⟩ := by
  refine ⟨String.mk ((encV headerJ ++ '.' :: encV P)
      ++ '.' :: hmacB64 K.data (encV headerJ ++ '.' :: encV P)), ?_, ?_⟩
  · rw [Token.encode, if_pos hK]
  · have hne : ((encV headerJ ++ '.' :: encV P)
        ++ '.' :: hmacB64 K.data (encV headerJ ++ '.' :: encV P)) ≠ [] := by
      intro h
      have := List.append_eq_nil.mp h
      simpa using this.2
    rw [Token.decode, if_neg (fun hs => hne (congrArg String.data hs))]
    have hassoc : ((encV headerJ ++ '.' :: encV P)
          ++ '.' :: hmacB64 K.data (encV headerJ ++ '.' :: encV P))
        = encV headerJ
          ++ '.' :: (encV P ++ '.' :: hmacB64 K.data (encV headerJ ++ '.' :: encV P)) := by
      simp
    show (match splitDots ((encV headerJ ++ '.' :: encV P)
        ++ '.' :: hmacB64 K.data (encV headerJ ++ '.' :: encV P)) with
      | s0 :: s1 :: s2 :: _ =>
        match deserialize s0, deserialize s1 with
        | some h, some b => some (⟨h, b, String.mk s2⟩ : TokenBody)
        | _, _ => none
      | _ => none)
      = some ⟨headerJ, P, String.mk (hmacB64 K.data (encV headerJ ++ '.' :: encV P))⟩
    rw [hassoc, splitDots_append _ _ (dot_notin_encV headerJ),
      splitDots_append _ _ (dot_notin_encV P),
      splitDots_no_dot _ (dot_notin_hmacB64 _ _)]
    simp [deserialize_encV]

/-- Witness for C3: the round-trip at the empty object payload and the
concrete key `"k"`. -/
theorem decode_encode_roundtrip_witness :
    ∃ t, Token.encode JVal.onil "k" = some t ∧
      Token.decode t
        = some ⟨headerJ, JVal.onil,
            ⟨hmacB64 "k".data (encV headerJ ++ '.' :: encV JVal.onil)⟩⟩ :=
  decode_encode_roundtrip JVal.onil "k" (by decide)

/-- C7: with a non-empty access key and no refresh key, `generate` returns
a result carrying the access token and
`dateAccess = now + accessLifetimeDays * 86400000`, and omits the refresh
token; with both keys non-empty it additionally returns a refresh token and
`dateRefresh = now + refreshLifetimeDays * 86400000`, and
`dateRefresh > dateAccess` whenever the refresh lifetime exceeds the access
lifetime. -/
theorem generate_result_shape (cfg : Config) (now : Int) (u : User)
    (accessKey refreshKey : String) (hak : accessKey ≠ "") :
    (∃ g, Token.generate cfg now u accessKey "" = some g ∧
       g.dateAccess = now + cfg.LTT * 86400000 ∧
       g.refreshToken = none ∧ g.dateRefresh = none) ∧
    (refreshKey ≠ "" →
      ∃ g r, Token.generate cfg now u accessKey refreshKey = some g ∧
        g.dateAccess = now + cfg.LTT * 86400000 ∧
        g.refreshToken = some r ∧
        g.dateRefresh = some (now + cfg.LTRT * 86400000) ∧
        (cfg.LTT < cfg.LTRT → ∃ dr, g.dateRefresh = some dr ∧ g.dateAccess < dr)) := by
  obtain ⟨t1, ht1⟩ : ∃ t, Token.encode
      (payloadJ cfg.DOMAIN now (now + 3600 * 1000 * 24 * cfg.LTT) (userJ u)) accessKey
        = some t :=
    ⟨_, by rw [Token.encode, if_pos hak]⟩
  constructor
  · refine ⟨⟨t1, now + 3600 * 1000 * 24 * cfg.LTT, none, none⟩, ?_, by ring, rfl, rfl⟩
    simp only [Token.generate, Token.generateSt, ht1]
    simp
  · intro hrk
    obtain ⟨t2, ht2⟩ : ∃ t, Token.encode
        (payloadJ cfg.DOMAIN now (now + 3600 * 1000 * 24 * cfg.LTRT) (userJ u)) refreshKey
          = some t :=
      ⟨_, by rw [Token.encode, if_pos hrk]⟩
    refine ⟨⟨t1, now + 3600 * 1000 * 24 * cfg.LTT, some t2,
        some (now + 3600 * 1000 * 24 * cfg.LTRT)⟩, t2, ?_, by ring, rfl,
        congrArg some (by ring), ?_⟩
    · simp only [Token.generate, Token.generateSt, ht1, ht2, if_pos hrk]
    · intro hlt
      refine ⟨now + 3600 * 1000 * 24 * cfg.LTRT, rfl, ?_⟩
      show now + 3600 * 1000 * 24 * cfg.LTT < now + 3600 * 1000 * 24 * cfg.LTRT
      omega

/-- The configuration used by the concrete scenarios: one-day access
lifetime, two-day refresh lifetime. -/
def cfgW : Config := ⟨"d", 1, 2⟩

/-- Witness for C7: the result shape at a concrete config, identity and
keys, for both the access-only and the access+refresh calls. -/
theorem generate_result_shape_witness :
    (∃ g, Token.generate cfgW 0 ⟨[]⟩ "a" "" = some g ∧
       g.dateAccess = 0 + cfgW.LTT * 86400000 ∧
       g.refreshToken = none ∧ g.dateRefresh = none) ∧
    (∃ g r, Token.generate cfgW 0 ⟨[]⟩ "a" "r" = some g ∧
       g.dateAccess = 0 + cfgW.LTT * 86400000 ∧
       g.refreshToken = some r ∧
       g.dateRefresh = some (0 + cfgW.LTRT * 86400000) ∧
       (cfgW.LTT < cfgW.LTRT → ∃ dr, g.dateRefresh = some dr ∧ g.dateAccess < dr)) := by
  have h := generate_result_shape cfgW 0 ⟨[]⟩ "a" "r" (by decide)
  exact ⟨h.1, h.2 (by decide)⟩

/-- C8: `generateCsrf(id, key)` builds the data object from `id` and the
creation time, signs it with hex HMAC-SHA512, and returns the token with
the timestamp; re-verifying with the returned values succeeds, because
`verifyCsrf key data token` holds exactly when `token` is the hex
HMAC-SHA512 of the JSON serialization of `data` under `key`. -/
theorem csrf_generate_verify :
    (∀ (now : Int) (id key : String),
       Token.generateCsrf now id key = ⟨hmacHex key (csrfJson ⟨id, now⟩), now⟩) ∧
    (∀ (now : Int) (id key : String),
       Token.verifyCsrf key ⟨id, (Token.generateCsrf now id key).timeCreate⟩
         (Token.generateCsrf now id key).csrfToken = true) ∧
    (∀ (key : String) (d : CsrfData) (token : String),
       Token.verifyCsrf key d token = true ↔ token = hmacHex key (csrfJson d)) := by
  refine ⟨fun now id key => rfl, fun now id key => ?_, fun key d token => ?_⟩
  · simp [Token.verifyCsrf, Token.generateCsrf]
  · simp [Token.verifyCsrf]

/-- C9: `generate` never mutates the identity object passed to it — the
final state of `user` equals its initial state on every path, with or
without a refresh key (the expiry recomputation writes the payload
wrapper's `exp` slot, not `user`). -/
theorem generate_preserves_identity (cfg : Config) (now : Int) (u : User)
    (accessKey refreshKey : String) :
    (Token.generateSt cfg now u accessKey refreshKey).2 = u := by
  simp only [Token.generateSt]
  split
  · rfl
  · split
    · split
      · rfl
      · rfl
    · rfl

/-- Helper for C10: `decode` is the catch-completion of its try-block. -/
theorem decode_eq_decodeE_catch (t : String) :
    Token.decode t
      = (match Token.decodeE t with
         | .ok r => r
         | .error _ => none) := by
  rw [Token.decode, Token.decodeE]
  by_cases h : t = ""
  · rw [if_pos h, if_pos h]
  · rw [if_neg h, if_neg h]
    rcases splitDots t.data with _ | ⟨s0, _ | ⟨s1, _ | ⟨s2, ss⟩⟩⟩
    · rfl
    · rfl
    · rfl
    · cases hd0 : deserialize s0 with
      | none => simp [deserializeE, hd0]
      | some hv =>
        cases hd1 : deserialize s1 with
        | none => simp [deserializeE, hd0, hd1]
        | some bv => simp [deserializeE, hd0, hd1]

/-- Helper for C10: `encode` is the catch-completion of its try-block,
which never errors. -/
theorem encode_eq_encodeE_catch (data : JVal) (key : String) :
    Token.encode data key
      = (match Token.encodeE data key with
         | .ok r => r
         | .error _ => none) := by
  simp only [Token.encode, Token.encodeE]
  by_cases h : key ≠ ""
  · rw [if_pos h, if_pos h]
  · rw [if_neg h, if_neg h]

/-- Helper for C10: `validate` is the catch-completion of its try-block,
with the raised `TypeError` converted to the ERROR result. -/
theorem validate_eq_validateE_catch (now : Int) (token key : String) :
    Token.validate now token key
      = (match Token.validateE now token key with
         | .ok r => r
         | .error _ => ⟨false, MSG_ERROR⟩) := by
  cases hdec : Token.decode token with
  | none => simp [Token.validate, Token.validateE, hdec]
  | some d =>
    simp only [Token.validate, Token.validateE, hdec]
    by_cases hnull : d.body = JVal.jnull
    · rw [if_pos hnull, if_pos hnull]
    · rw [if_neg hnull, if_neg hnull]
      by_cases hexp : expLt d.body now = true
      · rw [if_pos hexp, if_pos hexp]
      · rw [if_neg hexp, if_neg hexp]
        by_cases hs : d.sign.data ≠ recomputeSig key token
        · rw [if_pos hs, if_pos hs]
        · rw [if_neg hs, if_neg hs]

/-- Helper for C10: `verify` is the catch-completion of its try-block,
with both raised `TypeError`s converted to `false`. -/
theorem verify_eq_verifyE_catch (now : Int) (u : User)
    (accessKey accessToken : String) (refreshKey refreshToken : Option String) :
    Token.verify now u accessKey accessToken refreshKey refreshToken
      = (match Token.verifyE now u accessKey accessToken refreshKey refreshToken with
         | .ok b => b
         | .error _ => false) := by
  cases hdec : Token.decode accessToken with
  | none => simp [Token.verify, Token.verifyE, hdec]
  | some ia =>
    simp only [Token.verify, Token.verifyE, hdec]
    cases hcap : (u.hasOwn "userId" && u.hasOwn "userKey" && u.hasOwn "userRkey") with
    | false => simp
    | true =>
      simp only [Bool.not_true, Bool.false_eq_true, if_false]
      by_cases hnull : ia.body = JVal.jnull
      · rw [if_pos hnull, if_pos hnull]
      · rw [if_neg hnull, if_neg hnull]
        cases hbind : bindingOk ia.body u with
        | false => simp
        | true =>
          simp only [Bool.not_true, Bool.false_eq_true, if_false]
          cases hsucc : (Token.validate now accessToken accessKey).success with
          | true => simp
          | false =>
            simp only [Bool.not_false, if_true]
            cases refreshKey with
            | none => cases refreshToken <;> rfl
            | some rk =>
              cases refreshToken with
              | none => rfl
              | some rt =>
                cases hdec2 : Token.decode rt with
                | none => simp [hdec2]
                | some ir =>
                  simp only [hdec2]
                  cases hthrow : (dataIterates ia.body && refreshReadThrows ir.body) with
                  | true => simp
                  | false =>
                    simp only [Bool.false_eq_true, if_false]
                    cases hcross : crossOk ia.body ir.body with
                    | false => simp
                    | true => simp

/-- Helper for C10: `generate` is the catch-completion of its try-block,
with the explicit throws converted to the `false` sentinel. -/
theorem generate_eq_generateE_catch (cfg : Config) (now : Int) (u : User)
    (accessKey refreshKey : String) :
    Token.generate cfg now u accessKey refreshKey
      = (match Token.generateE cfg now u accessKey refreshKey with
         | .ok g => some g
         | .error _ => none) := by
  simp only [Token.generate, Token.generateSt, Token.generateE]
  cases h1 : Token.encode
      (payloadJ cfg.DOMAIN now (now + 3600 * 1000 * 24 * cfg.LTT) (userJ u)) accessKey with
  | none => simp
  | some token =>
    by_cases hrk : refreshKey ≠ ""
    · cases h2 : Token.encode
          (payloadJ cfg.DOMAIN now (now + 3600 * 1000 * 24 * cfg.LTRT) (userJ u)) refreshKey with
      | none => simp [hrk, h2]
      | some rtoken => simp [hrk, h2]
    · have hrk2 : refreshKey = "" := not_not.mp hrk
      simp [hrk2]

/-- C10: no public operation lets an exception propagate.  Each of the
seven operations equals the catch-completion of its try-block (the
`E`-versions, in which every throwing primitive and explicit `throw` is
rendered as `Except.error`): a raised error becomes the operation's
sentinel — `none` (the source's `false` return) for `encode`, `decode` and
`generate`, the `{success:false, "Ошибка проверки токена"}` structure for
`validate`, and `false` for `verify` — and the try-blocks of `encode`,
`generateCsrf` and `verifyCsrf` never raise for string-typed arguments, so
their catch arms (for `generateCsrf`, the arm that would return
`undefined`) are unreachable. -/
theorem operations_catch_every_failure
    (data : JVal) (key token : String) (now : Int) (u : User)
    (accessKey accessToken : String) (refreshKey refreshToken : Option String)
    (cfg : Config) (ak rk : String) (id : String) (cd : CsrfData) :
    Token.encode data key
      = (match Token.encodeE data key with | .ok r => r | .error _ => none) ∧
    Token.decode token
      = (match Token.decodeE token with | .ok r => r | .error _ => none) ∧
    Token.validate now token key
      = (match Token.validateE now token key with
         | .ok r => r
         | .error _ => ⟨false, MSG_ERROR⟩) ∧
    Token.verify now u accessKey accessToken refreshKey refreshToken
      = (match Token.verifyE now u accessKey accessToken refreshKey refreshToken with
         | .ok b => b
         | .error _ => false) ∧
    Token.generate cfg now u ak rk
      = (match Token.generateE cfg now u ak rk with
         | .ok g => some g
         | .error _ => none) ∧
    Token.generateCsrfE now id key = .ok (Token.generateCsrf now id key) ∧
    Token.verifyCsrfE key cd token = .ok (Token.verifyCsrf key cd token) :=
  ⟨encode_eq_encodeE_catch data key, decode_eq_decodeE_catch token,
    validate_eq_validateE_catch now token key,
    verify_eq_verifyE_catch now u accessKey accessToken refreshKey refreshToken,
    generate_eq_generateE_catch cfg now u ak rk, rfl, rfl⟩

/-- The identity of the C4 scenario: `{userId:"u1", userKey:"k1",
userRkey:"k2"}`. -/
def userC4 : User :=
  ⟨[("userId", .str "u1"), ("userKey", .str "k1"), ("userRkey", .str "k2")]⟩

/-- The token pair generated in the C4 scenario with keys `"k1"`/`"k2"`. -/
def pairC4 : Option GenResult := Token.generate cfgW 0 userC4 "k1" "k2"

/-- The scenario's access token `A`. -/
def tokAC4 : String := (pairC4.map (fun g => g.accessToken)).getD ""

/-- The scenario's refresh token `R`. -/
def tokRC4 : String := ((pairC4.map (fun g => g.refreshToken)).getD none).getD ""

/-- Token `A′`: the access token with the last character of its signature
segment (the token's final character) replaced. -/
def tokAC4corrupt : String := ⟨tokAC4.data.dropLast ++ ['#']⟩

set_option maxRecDepth 100000 in
/-- C4: `generate` on the identity `{userId:"u1", userKey:"k1",
userRkey:"k2"}` with keys `"k1"`/`"k2"` yields an access token `A` and a
refresh token `R` with `verify(identity,"k1",A,"k2",R) = true`; corrupting
one character of `A`'s signature segment gives `A′` that still decodes to
the same header and body but fails access validation, and
`verify(identity,"k1",A′,"k2",R)` falls through to refresh validation and
still returns true. -/
theorem generate_verify_fallback_scenario :
    (∃ g, pairC4 = some g ∧ g.accessToken = tokAC4 ∧ g.refreshToken = some tokRC4) ∧
    Token.verify 0 userC4 "k1" tokAC4 (some "k2") (some tokRC4) = true ∧
    tokAC4corrupt ≠ tokAC4 ∧
    (Token.decode tokAC4corrupt).map TokenBody.header
      = (Token.decode tokAC4).map TokenBody.header ∧
    (Token.decode tokAC4corrupt).map TokenBody.body
      = (Token.decode tokAC4).map TokenBody.body ∧
    (Token.validate 0 tokAC4corrupt "k1").success = false ∧
    Token.verify 0 userC4 "k1" tokAC4corrupt (some "k2") (some tokRC4) = true := by
  refine ⟨⟨⟨tokAC4, 86400000, some tokRC4, some 172800000⟩, by decide, rfl, rfl⟩,
    by decide, by decide, by decide, by decide, by decide, by decide⟩

end FastFlash
